import Mathlib

/-!
Verification of the `ProteotypicResult` value type from
`src/pwiz_aux/sfcap/peptideSieve/proteotypicResult.hpp`.

The C++ source declares

  struct ProteotypicResult {
    string _protein;
    string _peptide;
    map<string,double> _results;
    ProteotypicResult() : _protein(""), _peptide("") {};
  };

We embed the struct shallowly.  The `std::map<string,double>` member is
embedded as a key-sorted association list (the representation invariant
maintained by `std::map`: keys strictly increasing, hence unique), with
insertion (`m[k] = v`), lookup (`m.find(k)`) and size (`m.size()`)
translated to Lean functions over that list.  The `double` values are
represented by rationals: the claims under study exercise only storage
and retrieval of score values, never floating-point arithmetic, so this
representation is faithful for them.
-/

namespace PwizProteotypic

/-- Lexicographic comparison of character lists, the order
`std::less<std::string>` uses on the key type of the map member. -/
def lexLt : List Char → List Char → Bool
  | _, [] => false
  | [], _ :: _ => true
  | c :: cs, d :: ds =>
    if c < d then true
    else if d < c then false
    else lexLt cs ds

/-- The strict order on map keys: lexicographic comparison of the two
strings. -/
def strLt (s t : String) : Bool :=
  lexLt s.data t.data

/-- Insertion into the key-sorted association list embedding of
`std::map<string,double>`: the semantics of `m[k] = v`, which places the
entry at its ordered position and overwrites any existing entry under the
same key. -/
def mapInsert (k : String) (v : ℚ) : List (String × ℚ) → List (String × ℚ)
  | [] => [(k, v)]
  | p :: rest =>
    if strLt k p.1 then (k, v) :: p :: rest
    else if k = p.1 then (k, v) :: rest
    else p :: mapInsert k v rest

/-- Lookup in the association list embedding of `std::map<string,double>`:
the semantics of `m.find(k)`, returning the stored value when the key is
present and a not-found signal (`none`, the embedding of the end iterator)
otherwise. -/
def mapFind (k : String) : List (String × ℚ) → Option ℚ
  | [] => none
  | p :: rest => if k = p.1 then some p.2 else mapFind k rest

/-- Number of entries stored under key `k`.  In a well-formed map this is
0 or 1; it lets us state that insertion never duplicates a key. -/
def countKey (k : String) (l : List (String × ℚ)) : Nat :=
  (l.filter (fun p => p.1 = k)).length

/-- The representation invariant of `std::map`: keys strictly increasing
along the list (hence unique).  Every C++ `map<string,double>` value
satisfies it. -/
def SortedKeys (l : List (String × ℚ)) : Prop :=
  l.Pairwise (fun a b => strLt a.1 b.1 = true)

instance (l : List (String × ℚ)) : Decidable (SortedKeys l) := by
  unfold SortedKeys; infer_instance

/-- The struct `ProteotypicResult`: protein identifier, peptide sequence
and the score set. -/
structure ProteotypicResult where
  _protein : String
  _peptide : String
  _results : List (String × ℚ)
deriving DecidableEq

namespace ProteotypicResult

/-- The default constructor `ProteotypicResult()`, which initialises
`_protein` and `_peptide` to `""`; the member `_results` is
default-constructed to the empty map. -/
def mkDefault : ProteotypicResult := ⟨"", "", []⟩

/-- Field assignment `r._protein = s`. -/
def setProtein (r : ProteotypicResult) (s : String) : ProteotypicResult :=
  { r with _protein := s }

/-- Field assignment `r._peptide = s`. -/
def setPeptide (r : ProteotypicResult) (s : String) : ProteotypicResult :=
  { r with _peptide := s }

/-- Score insertion `r._results[k] = v`. -/
def insertScore (r : ProteotypicResult) (k : String) (v : ℚ) : ProteotypicResult :=
  { r with _results := mapInsert k v r._results }

/-- Score lookup `r._results.find(k)`. -/
def lookupScore (r : ProteotypicResult) (k : String) : Option ℚ :=
  mapFind k r._results

/-- Size of the score set, `r._results.size()`. -/
def scoreSize (r : ProteotypicResult) : Nat :=
  r._results.length

/-- Well-formedness of a record: its `std::map` member satisfies the map
representation invariant. -/
def WF (r : ProteotypicResult) : Prop :=
  SortedKeys r._results

instance (r : ProteotypicResult) : Decidable r.WF :=
  inferInstanceAs (Decidable (SortedKeys r._results))

end ProteotypicResult

/-- Record operations, reified so that statements can quantify over an
arbitrary field assignment or score insertion. -/
inductive RecordOp where
  | setProt (s : String)
  | setPep (s : String)
  | insert (k : String) (v : ℚ)

/-- Apply one reified operation to a record. -/
def applyOp (o : RecordOp) (r : ProteotypicResult) : ProteotypicResult :=
  match o with
  | .setProt s => r.setProtein s
  | .setPep s => r.setPeptide s
  | .insert k v => r.insertScore k v

/-- Run a sequence of operations on a record, in order. -/
def runOps (ops : List RecordOp) (r : ProteotypicResult) : ProteotypicResult :=
  ops.foldl (fun acc o => applyOp o acc) r

/-- The implicit C++ copy constructor: memberwise copy of the three
members (`std::string` and `std::map` both copy by value). -/
def copyRecord (r : ProteotypicResult) : ProteotypicResult :=
  ⟨r._protein, r._peptide, r._results⟩

/-- A store of several distinct records, e.g. the collection an external
aggregator accumulates; position in the list models object identity. -/
def applyAt (f : ProteotypicResult → ProteotypicResult) :
    Nat → List ProteotypicResult → List ProteotypicResult
  | _, [] => []
  | 0, r :: rest => f r :: rest
  | n + 1, r :: rest => r :: applyAt f n rest

/-! Basic lemmas about the key order and the association-list embedding
of the map. -/

theorem lexLt_irrefl (l : List Char) : lexLt l l = false := by
  induction l with
  | nil => rfl
  | cons c cs ih => simp [lexLt, ih]

theorem lexLt_asymm : ∀ {a b : List Char}, lexLt a b = true → lexLt b a = false
  | _, [], h => by simp [lexLt] at h
  | [], _ :: _, _ => rfl
  | c :: cs, d :: ds, h => by
    by_cases h1 : c < d
    · simp [lexLt, h1, lt_asymm h1]
    · by_cases h2 : d < c
      · simp [lexLt, h1, h2] at h
      · have hcd : c = d := le_antisymm (not_lt.mp h2) (not_lt.mp h1)
        subst hcd
        simp only [lexLt, if_neg h1, if_neg h2] at h ⊢
        exact lexLt_asymm h

theorem lexLt_trans : ∀ {a b c : List Char}, lexLt a b = true → lexLt b c = true →
    lexLt a c = true
  | _, [], _, h, _ => by simp [lexLt] at h
  | _, _, [], _, h' => by simp [lexLt] at h'
  | [], _ :: _, _ :: _, _, _ => rfl
  | x :: xs, y :: ys, z :: zs, h, h' => by
    by_cases hxy : x < y
    · by_cases hyz : y < z
      · simp [lexLt, lt_trans hxy hyz]
      · by_cases hzy : z < y
        · simp [lexLt, hyz, hzy] at h'
        · have hyzeq : y = z := le_antisymm (not_lt.mp hzy) (not_lt.mp hyz)
          subst hyzeq
          simp [lexLt, hxy]
    · by_cases hyx : y < x
      · simp [lexLt, hxy, hyx] at h
      · have hxyeq : x = y := le_antisymm (not_lt.mp hyx) (not_lt.mp hxy)
        subst hxyeq
        simp only [lexLt, if_neg hxy, if_neg hyx] at h
        by_cases hxz : x < z
        · simp [lexLt, hxz]
        · by_cases hzx : z < x
          · simp [lexLt, hxz, hzx] at h'
          · simp only [lexLt, if_neg hxz, if_neg hzx] at h' ⊢
            exact lexLt_trans h h'

theorem lexLt_eq_of_not : ∀ {a b : List Char}, ¬ lexLt a b = true →
    ¬ lexLt b a = true → a = b
  | [], [], _, _ => rfl
  | [], _ :: _, h, _ => absurd rfl h
  | _ :: _, [], _, h' => absurd rfl h'
  | x :: xs, y :: ys, h, h' => by
    by_cases hxy : x < y
    · exact absurd (by simp [lexLt, hxy]) h
    · by_cases hyx : y < x
      · exact absurd (by simp [lexLt, hyx]) h'
      · have hxyeq : x = y := le_antisymm (not_lt.mp hyx) (not_lt.mp hxy)
        subst hxyeq
        simp only [lexLt, if_neg hxy] at h h'
        rw [lexLt_eq_of_not h h']

theorem string_data_inj : ∀ {s t : String}, s.data = t.data → s = t
  | ⟨_⟩, ⟨_⟩, h => congrArg String.mk h

theorem strLt_irrefl (a : String) : strLt a a = false :=
  lexLt_irrefl a.data

theorem strLt_asymm {a b : String} (h : strLt a b = true) : strLt b a = false :=
  lexLt_asymm h

theorem strLt_trans {a b c : String} (h1 : strLt a b = true)
    (h2 : strLt b c = true) : strLt a c = true :=
  lexLt_trans h1 h2

theorem strLt_eq_of_not {a b : String} (h1 : ¬ strLt a b = true)
    (h2 : ¬ strLt b a = true) : a = b :=
  string_data_inj (lexLt_eq_of_not h1 h2)

theorem strLt_ne {a b : String} (h : strLt a b = true) : a ≠ b := by
  intro he
  subst he
  rw [strLt_irrefl] at h
  exact Bool.false_ne_true h

theorem strLt_trichotomy (a b : String) :
    strLt a b = true ∨ a = b ∨ strLt b a = true := by
  by_cases h1 : strLt a b = true
  · exact Or.inl h1
  · by_cases h2 : strLt b a = true
    · exact Or.inr (Or.inr h2)
    · exact Or.inr (Or.inl (strLt_eq_of_not h1 h2))

/-- Lookup immediately after inserting the same key returns the inserted
value. -/
theorem mapFind_mapInsert_self (k : String) (v : ℚ) (l : List (String × ℚ)) :
    mapFind k (mapInsert k v l) = some v := by
  induction l with
  | nil => simp [mapInsert, mapFind]
  | cons p rest ih =>
    by_cases h1 : strLt k p.1 = true
    · simp [mapInsert, mapFind, h1]
    · by_cases h2 : k = p.1
      · simp [mapInsert, mapFind, h1, h2, strLt_irrefl]
      · simp [mapInsert, mapFind, h1, h2, ih]

/-- Inserting under one key does not change lookups under any other key. -/
theorem mapFind_mapInsert_ne (k k' : String) (v : ℚ) (l : List (String × ℚ))
    (hne : k' ≠ k) : mapFind k' (mapInsert k v l) = mapFind k' l := by
  induction l with
  | nil => simp [mapInsert, mapFind, hne]
  | cons p rest ih =>
    by_cases h1 : strLt k p.1 = true
    · simp [mapInsert, mapFind, h1, hne]
    · by_cases h2 : k = p.1
      · subst h2
        simp [mapInsert, mapFind, h1, hne]
      · simp [mapInsert, mapFind, h1, h2, ih]

/-- Every entry of the list after an insertion is the inserted pair or an
entry that was already present. -/
theorem mem_mapInsert (k : String) (v : ℚ) (l : List (String × ℚ)) :
    ∀ q ∈ mapInsert k v l, q = (k, v) ∨ q ∈ l := by
  induction l with
  | nil => simp [mapInsert]
  | cons p rest ih =>
    intro q hq
    by_cases h1 : strLt k p.1 = true
    · simp only [mapInsert, if_pos h1, List.mem_cons] at hq
      rcases hq with h | h | h
      · exact Or.inl h
      · exact Or.inr (by simp [h])
      · exact Or.inr (by simp [h])
    · by_cases h2 : k = p.1
      · simp only [mapInsert, if_neg h1, if_pos h2, List.mem_cons] at hq
        rcases hq with h | h
        · exact Or.inl h
        · exact Or.inr (by simp [h])
      · simp only [mapInsert, if_neg h1, if_neg h2, List.mem_cons] at hq
        rcases hq with h | h
        · exact Or.inr (by simp [h])
        · rcases ih q h with h' | h'
          · exact Or.inl h'
          · exact Or.inr (by simp [h'])

/-- Insertion preserves the `std::map` representation invariant. -/
theorem sortedKeys_mapInsert (k : String) (v : ℚ) (l : List (String × ℚ))
    (h : SortedKeys l) : SortedKeys (mapInsert k v l) := by
  induction l with
  | nil => simp [mapInsert, SortedKeys]
  | cons p rest ih =>
    rw [SortedKeys, List.pairwise_cons] at h
    obtain ⟨hp, hrest⟩ := h
    by_cases h1 : strLt k p.1 = true
    · rw [SortedKeys, mapInsert, if_pos h1, List.pairwise_cons]
      refine ⟨?_, ?_⟩
      · intro q hq
        rcases List.mem_cons.mp hq with h' | h'
        · rw [h']; exact h1
        · exact strLt_trans h1 (hp q h')
      · rw [List.pairwise_cons]; exact ⟨hp, hrest⟩
    · by_cases h2 : k = p.1
      · rw [SortedKeys, mapInsert, if_neg h1, if_pos h2, List.pairwise_cons]
        refine ⟨?_, hrest⟩
        intro q hq
        rw [h2]
        exact hp q hq
      · rw [SortedKeys, mapInsert, if_neg h1, if_neg h2, List.pairwise_cons]
        refine ⟨?_, ih hrest⟩
        intro q hq
        rcases mem_mapInsert k v rest q hq with h' | h'
        · rw [h']
          rcases strLt_trichotomy k p.1 with ht | ht | ht
          · exact absurd ht h1
          · exact absurd ht h2
          · exact ht
        · exact hp q h'

/-- Unfolding of `countKey` over a cons cell. -/
theorem countKey_cons (k : String) (q : String × ℚ) (l : List (String × ℚ)) :
    countKey k (q :: l) = (if q.1 = k then 1 else 0) + countKey k l := by
  by_cases h : q.1 = k
  · simp [countKey, List.filter_cons, h, Nat.add_comm]
  · simp [countKey, List.filter_cons, h]

/-- If every key of the list exceeds `k`, then no entry is stored under
`k`. -/
theorem countKey_eq_zero_of_forall_lt (k : String) (l : List (String × ℚ))
    (h : ∀ q ∈ l, strLt k q.1 = true) : countKey k l = 0 := by
  induction l with
  | nil => rfl
  | cons p rest ih =>
    have hp : strLt k p.1 = true := h p (by simp)
    have hne : ¬ p.1 = k := Ne.symm (strLt_ne hp)
    rw [countKey_cons, if_neg hne, ih (fun q hq => h q (by simp [hq]))]

/-- On a well-formed map, inserting under `k` leaves exactly one entry
stored under `k`. -/
theorem countKey_mapInsert_self (k : String) (v : ℚ) (l : List (String × ℚ))
    (h : SortedKeys l) : countKey k (mapInsert k v l) = 1 := by
  induction l with
  | nil => simp [mapInsert, countKey]
  | cons p rest ih =>
    rw [SortedKeys, List.pairwise_cons] at h
    obtain ⟨hp, hrest⟩ := h
    by_cases h1 : strLt k p.1 = true
    · rw [mapInsert, if_pos h1]
      have hzero : countKey k (p :: rest) = 0 := by
        refine countKey_eq_zero_of_forall_lt k (p :: rest) ?_
        intro q hq
        rcases List.mem_cons.mp hq with h' | h'
        · rw [h']; exact h1
        · exact strLt_trans h1 (hp q h')
      rw [countKey_cons, if_pos rfl, hzero]
    · by_cases h2 : k = p.1
      · rw [mapInsert, if_neg h1, if_pos h2]
        have hzero : countKey k rest = 0 := by
          refine countKey_eq_zero_of_forall_lt k rest ?_
          intro q hq
          rw [h2]
          exact hp q hq
        rw [countKey_cons, if_pos rfl, hzero]
      · rw [mapInsert, if_neg h1, if_neg h2,
          countKey_cons, if_neg (fun he => h2 he.symm), ih hrest]

/-- Lookup of a key that appears nowhere in the list returns the
not-found signal. -/
theorem mapFind_eq_none_of_not_mem (k : String) (l : List (String × ℚ))
    (h : k ∉ l.map Prod.fst) : mapFind k l = none := by
  induction l with
  | nil => rfl
  | cons p rest ih =>
    simp only [List.map_cons, List.mem_cons] at h
    push_neg at h
    rw [mapFind, if_neg h.1]
    exact ih h.2

/-- On a well-formed map, lookup of a present key returns the stored
value. -/
theorem mapFind_eq_some_of_mem (k : String) (v : ℚ) (l : List (String × ℚ))
    (hs : SortedKeys l) (h : (k, v) ∈ l) : mapFind k l = some v := by
  induction l with
  | nil => exact absurd h (List.not_mem_nil _)
  | cons p rest ih =>
    rw [SortedKeys, List.pairwise_cons] at hs
    obtain ⟨hp, hrest⟩ := hs
    by_cases h1 : k = p.1
    · rw [mapFind, if_pos h1]
      rcases List.mem_cons.mp h with h' | h'
      · rw [← h']
      · have hc : strLt p.1 k = true := hp (k, v) h'
        rw [← h1, strLt_irrefl] at hc
        exact absurd hc Bool.false_ne_true
    · rw [mapFind, if_neg h1]
      rcases List.mem_cons.mp h with h' | h'
      · exact absurd (congrArg Prod.fst h') h1
      · exact ih hrest h'

/-- Insertions under distinct keys commute: `std::map` stores entries in
key order, so the resulting container does not depend on the order of the
two assignments. -/
theorem mapInsert_comm (k1 k2 : String) (v1 v2 : ℚ) (hne : k1 ≠ k2)
    (l : List (String × ℚ)) :
    mapInsert k1 v1 (mapInsert k2 v2 l) = mapInsert k2 v2 (mapInsert k1 v1 l) := by
  induction l with
  | nil =>
    rcases strLt_trichotomy k1 k2 with h | h | h
    · simp [mapInsert, h, strLt_asymm h, Ne.symm hne]
    · exact absurd h hne
    · simp [mapInsert, h, strLt_asymm h, hne]
  | cons p rest ih =>
    rcases strLt_trichotomy k1 p.1 with a | a | a <;>
      rcases strLt_trichotomy k2 p.1 with b | b | b
    · rcases strLt_trichotomy k1 k2 with h | h | h
      · simp [mapInsert, a, b, h, strLt_asymm h, Ne.symm hne]
      · exact absurd h hne
      · simp [mapInsert, a, b, h, strLt_asymm h, hne]
    · subst b
      simp [mapInsert, a, strLt_asymm a, strLt_irrefl, strLt_ne a,
        Ne.symm (strLt_ne a)]
    · simp [mapInsert, a, b, strLt_asymm b, Ne.symm (strLt_ne b),
        strLt_asymm (strLt_trans a b), Ne.symm (strLt_ne (strLt_trans a b))]
    · subst a
      simp [mapInsert, b, strLt_asymm b, strLt_irrefl, strLt_ne b,
        Ne.symm (strLt_ne b)]
    · exact absurd (a.trans b.symm) hne
    · subst a
      simp [mapInsert, b, strLt_asymm b, Ne.symm (strLt_ne b), strLt_ne b,
        strLt_irrefl]
    · simp [mapInsert, a, b, strLt_asymm a, Ne.symm (strLt_ne a),
        strLt_asymm (strLt_trans b a), Ne.symm (strLt_ne (strLt_trans b a))]
    · subst b
      simp [mapInsert, a, strLt_asymm a, Ne.symm (strLt_ne a), strLt_ne a,
        strLt_irrefl]
    · simp [mapInsert, a, b, strLt_asymm a, Ne.symm (strLt_ne a), strLt_asymm b,
        Ne.symm (strLt_ne b), ih]

/-- Applying an operation to the record at position `i` of a store leaves
every other position untouched. -/
theorem applyAt_getElem_ne (f : ProteotypicResult → ProteotypicResult)
    (i j : Nat) (store : List ProteotypicResult) (h : i ≠ j) :
    (applyAt f i store)[j]? = store[j]? := by
  induction store generalizing i j with
  | nil => cases i <;> rfl
  | cons r rest ih =>
    cases i with
    | zero =>
      cases j with
      | zero => exact absurd rfl h
      | succ j' => simp [applyAt]
    | succ i' =>
      cases j with
      | zero => simp [applyAt]
      | succ j' =>
        simp only [applyAt, List.getElem?_cons_succ]
        exact ih i' j' (fun he => h (by rw [he]))

open ProteotypicResult

/-- C1: a freshly default-constructed record has protein identifier `""`,
peptide sequence `""`, and an empty score set. -/
theorem claim_C1_default_construction :
    mkDefault._protein = "" ∧ mkDefault._peptide = "" ∧
    mkDefault._results = [] ∧ mkDefault.scoreSize = 0 :=
  ⟨rfl, rfl, rfl, rfl⟩

/-- C2: inserting `v1` under `k` and then `v2` under the same `k` leaves
exactly one entry under `k`, holding `v2` (last write wins, no
accumulation).  The hypothesis is the `std::map` representation
invariant, which every C++ record satisfies. -/
theorem claim_C2_last_write_wins (R : ProteotypicResult) (k : String)
    (v1 v2 : ℚ) (h : R.WF) :
    countKey k (((R.insertScore k v1).insertScore k v2)._results) = 1 ∧
    ((R.insertScore k v1).insertScore k v2).lookupScore k = some v2 := by
  refine ⟨?_, ?_⟩
  · exact countKey_mapInsert_self k v2 _ (sortedKeys_mapInsert k v1 _ h)
  · exact mapFind_mapInsert_self k v2 _

/-- Witness for C2 at the concrete input of Scenario B of the spec. -/
theorem claim_C2_witness :
    mkDefault.WF ∧
    (countKey "MethodA"
        (((mkDefault.insertScore "MethodA" (1/2)).insertScore "MethodA" (3/4))._results) = 1 ∧
      ((mkDefault.insertScore "MethodA" (1/2)).insertScore "MethodA" (3/4)).lookupScore
        "MethodA" = some (3/4)) :=
  ⟨by decide, claim_C2_last_write_wins mkDefault "MethodA" (1/2) (3/4) (by decide)⟩

/-- C3: looking up an absent key returns the not-found signal `none`,
never a fabricated value; looking up a present key returns the stored
value. -/
theorem claim_C3_lookup_semantics (R : ProteotypicResult) (k : String)
    (h : R.WF) :
    (k ∉ R._results.map Prod.fst → R.lookupScore k = none) ∧
    (∀ v : ℚ, (k, v) ∈ R._results → R.lookupScore k = some v) := by
  refine ⟨?_, ?_⟩
  · exact fun hk => mapFind_eq_none_of_not_mem k R._results hk
  · exact fun v hv => mapFind_eq_some_of_mem k v R._results h hv

/-- Witness for C3: a record holding a single score, probed at the absent
key of Scenario C and at its present key. -/
theorem claim_C3_witness :
    (⟨"", "", [("MethodA", 1/2)]⟩ : ProteotypicResult).WF ∧
    "Unscored" ∉ ((⟨"", "", [("MethodA", 1/2)]⟩ : ProteotypicResult))._results.map Prod.fst ∧
    (⟨"", "", [("MethodA", 1/2)]⟩ : ProteotypicResult).lookupScore "Unscored" = none ∧
    (⟨"", "", [("MethodA", 1/2)]⟩ : ProteotypicResult).lookupScore "MethodA" = some (1/2) :=
  ⟨by decide, by decide,
    (claim_C3_lookup_semantics ⟨"", "", [("MethodA", 1/2)]⟩ "Unscored" (by decide)).1
      (by decide),
    (claim_C3_lookup_semantics ⟨"", "", [("MethodA", 1/2)]⟩ "MethodA" (by decide)).2
      (1/2) (List.mem_cons_self _ _)⟩

/-- C5: assigning the protein identifier or the peptide sequence leaves
the score set unchanged, and a score insertion leaves both identifier
fields unchanged; the two string fields are also independent of each
other. -/
theorem claim_C5_field_independence (R : ProteotypicResult) (s t k : String)
    (v : ℚ) :
    (R.setProtein s)._results = R._results ∧
    (R.setPeptide t)._results = R._results ∧
    (R.insertScore k v)._protein = R._protein ∧
    (R.insertScore k v)._peptide = R._peptide ∧
    (R.setProtein s)._peptide = R._peptide ∧
    (R.setPeptide t)._protein = R._protein :=
  ⟨rfl, rfl, rfl, rfl, rfl, rfl⟩

/-- C7: every operation is a total function into `ProteotypicResult` (no
error result type, no failure branch), and each always takes effect: any
string, the empty string included, is stored by field assignment, and any
score insertion becomes visible to lookup. -/
theorem claim_C7_operations_total (R : ProteotypicResult) (s t k : String)
    (v : ℚ) :
    (R.setProtein s)._protein = s ∧
    (R.setPeptide t)._peptide = t ∧
    (R.insertScore k v).lookupScore k = some v :=
  ⟨rfl, rfl, mapFind_mapInsert_self k v R._results⟩

/-- C4 counterexample: the claim quantifies over every record, but for a
well-formed record that already holds one score under a third key, the
two insertions under distinct fresh keys yield a score set of size 3, not
2. -/
theorem claim_C4_counterexample :
    (⟨"", "", [("a", 1)]⟩ : ProteotypicResult).WF ∧ ("b" : String) ≠ "c" ∧
    ¬ ((((⟨"", "", [("a", 1)]⟩ : ProteotypicResult).insertScore "b" 1).insertScore
        "c" 2).scoreSize = 2) ∧
    (((⟨"", "", [("a", 1)]⟩ : ProteotypicResult).insertScore "b" 1).insertScore
        "c" 2).scoreSize = 3 := by
  decide

/-- C4 amended: for every record and distinct keys, the two insertion
orders produce identical score sets, lookup under each key returns the
value inserted under it, and the size is 2 when the starting score set
was empty. -/
theorem claim_C4_distinct_keys (R : ProteotypicResult) (k1 k2 : String)
    (v1 v2 : ℚ) (hne : k1 ≠ k2) :
    ((R.insertScore k1 v1).insertScore k2 v2)._results
      = ((R.insertScore k2 v2).insertScore k1 v1)._results ∧
    ((R.insertScore k1 v1).insertScore k2 v2).lookupScore k1 = some v1 ∧
    ((R.insertScore k1 v1).insertScore k2 v2).lookupScore k2 = some v2 ∧
    (R._results = [] → ((R.insertScore k1 v1).insertScore k2 v2).scoreSize = 2) := by
  refine ⟨?_, ?_, ?_, ?_⟩
  · exact mapInsert_comm k2 k1 v2 v1 (Ne.symm hne) R._results
  · show mapFind k1 (mapInsert k2 v2 (mapInsert k1 v1 R._results)) = some v1
    rw [mapFind_mapInsert_ne k2 k1 v2 _ hne]
    exact mapFind_mapInsert_self k1 v1 _
  · exact mapFind_mapInsert_self k2 v2 _
  · intro h0
    show (mapInsert k2 v2 (mapInsert k1 v1 R._results)).length = 2
    rw [h0]
    rcases strLt_trichotomy k2 k1 with h | h | h
    · simp [mapInsert, h]
    · exact absurd h.symm hne
    · simp [mapInsert, h, strLt_asymm h, Ne.symm (strLt_ne h)]

/-- Witness for the amended C4 at distinct concrete keys. -/
theorem claim_C4_witness :
    ("a" : String) ≠ "b" ∧
    (((mkDefault.insertScore "a" 1).insertScore "b" 2)._results
        = ((mkDefault.insertScore "b" 2).insertScore "a" 1)._results ∧
      ((mkDefault.insertScore "a" 1).insertScore "b" 2).lookupScore "a" = some 1 ∧
      ((mkDefault.insertScore "a" 1).insertScore "b" 2).lookupScore "b" = some 2 ∧
      (mkDefault._results = [] →
        ((mkDefault.insertScore "a" 1).insertScore "b" 2).scoreSize = 2)) :=
  ⟨by decide, claim_C4_distinct_keys mkDefault "a" "b" 1 2 (by decide)⟩

/-- C6: applying any operation (field assignment or score insertion) to
the record at one position of a store leaves the record at every other
position, all three fields included, unchanged: each record owns its own
score set. -/
theorem claim_C6_record_isolation (o : RecordOp) (i j : Nat)
    (store : List ProteotypicResult) (h : i ≠ j) :
    (applyAt (applyOp o) i store)[j]? = store[j]? :=
  applyAt_getElem_ne (applyOp o) i j store h

/-- Witness for C6: a two-record store, a score inserted into the first
record, the second record observed unchanged. -/
theorem claim_C6_witness :
    (0 : Nat) ≠ 1 ∧
    (applyAt (applyOp (RecordOp.insert "k" 5)) 0
        [⟨"pA", "sA", []⟩, (⟨"pB", "sB", [("x", 1)]⟩ : ProteotypicResult)])[1]?
      = [(⟨"pA", "sA", []⟩ : ProteotypicResult), ⟨"pB", "sB", [("x", 1)]⟩][1]? :=
  ⟨by decide,
    claim_C6_record_isolation (RecordOp.insert "k" 5) 0 1
      [⟨"pA", "sA", []⟩, ⟨"pB", "sB", [("x", 1)]⟩] (by decide)⟩

/-- C8: Scenario A of the spec, run concretely.  The final score set is
the key-sorted map holding exactly the two inserted entries. -/
theorem claim_C8_scenario_A :
    ((((mkDefault.setProtein "P12345").setPeptide "ACDEFGHIK").insertScore
        "SVMClassifier" (87/100)).insertScore "RandomForest" (91/100))._protein
      = "P12345" ∧
    ((((mkDefault.setProtein "P12345").setPeptide "ACDEFGHIK").insertScore
        "SVMClassifier" (87/100)).insertScore "RandomForest" (91/100))._peptide
      = "ACDEFGHIK" ∧
    ((((mkDefault.setProtein "P12345").setPeptide "ACDEFGHIK").insertScore
        "SVMClassifier" (87/100)).insertScore "RandomForest" (91/100))._results
      = [("RandomForest", 91/100), ("SVMClassifier", 87/100)] ∧
    ((((mkDefault.setProtein "P12345").setPeptide "ACDEFGHIK").insertScore
        "SVMClassifier" (87/100)).insertScore "RandomForest"
        (91/100)).lookupScore "SVMClassifier" = some (87/100) ∧
    ((((mkDefault.setProtein "P12345").setPeptide "ACDEFGHIK").insertScore
        "SVMClassifier" (87/100)).insertScore "RandomForest"
        (91/100)).lookupScore "RandomForest" = some (91/100) ∧
    ((((mkDefault.setProtein "P12345").setPeptide "ACDEFGHIK").insertScore
        "SVMClassifier" (87/100)).insertScore "RandomForest"
        (91/100)).scoreSize = 2 :=
  ⟨rfl, rfl, rfl, rfl, rfl, rfl⟩

/-- C9: the memberwise copy agrees with the original on all three fields,
and once the copy is appended to the store, any operation applied to the
copy leaves the original unchanged, and any operation applied to the
original leaves the copy unchanged. -/
theorem claim_C9_copy_value_semantics (store : List ProteotypicResult)
    (i : Nat) (o : RecordOp) (orig : ProteotypicResult)
    (h : store[i]? = some orig) :
    (copyRecord orig)._protein = orig._protein ∧
    (copyRecord orig)._peptide = orig._peptide ∧
    (copyRecord orig)._results = orig._results ∧
    (applyAt (applyOp o) store.length (store ++ [copyRecord orig]))[i]? = some orig ∧
    (applyAt (applyOp o) i (store ++ [copyRecord orig]))[store.length]?
      = some (copyRecord orig) := by
  have hi : i < store.length := by
    by_contra hge
    rw [List.getElem?_eq_none (Nat.le_of_not_lt hge)] at h
    exact Option.noConfusion h
  refine ⟨rfl, rfl, rfl, ?_, ?_⟩
  · rw [applyAt_getElem_ne _ _ _ _ (Ne.symm (Nat.ne_of_lt hi)),
      List.getElem?_append, if_pos hi]
    exact h
  · rw [applyAt_getElem_ne _ _ _ _ (Nat.ne_of_lt hi)]
    exact List.getElem?_concat_length store (copyRecord orig)

/-- Witness for C9: a one-record store, the record copied and the copy
mutated; the original is observed unchanged, and conversely. -/
theorem claim_C9_witness :
    ([(⟨"prot", "pept", [("m", 1)]⟩ : ProteotypicResult)][0]?
        = some ⟨"prot", "pept", [("m", 1)]⟩) ∧
    ((copyRecord ⟨"prot", "pept", [("m", 1)]⟩)._protein = "prot" ∧
      (copyRecord ⟨"prot", "pept", [("m", 1)]⟩)._peptide = "pept" ∧
      (copyRecord ⟨"prot", "pept", [("m", 1)]⟩)._results = [("m", 1)] ∧
      (applyAt (applyOp (RecordOp.insert "k" 2)) 1
          ([⟨"prot", "pept", [("m", 1)]⟩] ++ [copyRecord ⟨"prot", "pept", [("m", 1)]⟩]))[0]?
        = some ⟨"prot", "pept", [("m", 1)]⟩ ∧
      (applyAt (applyOp (RecordOp.insert "k" 2)) 0
          ([⟨"prot", "pept", [("m", 1)]⟩] ++ [copyRecord ⟨"prot", "pept", [("m", 1)]⟩]))[1]?
        = some (copyRecord ⟨"prot", "pept", [("m", 1)]⟩)) :=
  ⟨rfl,
    claim_C9_copy_value_semantics [⟨"prot", "pept", [("m", 1)]⟩] 0
      (RecordOp.insert "k" 2) ⟨"prot", "pept", [("m", 1)]⟩ rfl⟩

/-- C10: record operations are deterministic: running one operation
sequence twice from the same starting record yields identical final
records and identical lookup results.  The embedding carries no ambient
state because the C++ struct has only instance members and its operations
touch nothing else. -/
theorem claim_C10_deterministic (ops : List RecordOp)
    (R1 R2 : ProteotypicResult) (h : R1 = R2) :
    runOps ops R1 = runOps ops R2 ∧
    ∀ k : String, (runOps ops R1).lookupScore k = (runOps ops R2).lookupScore k := by
  subst h
  exact ⟨rfl, fun _ => rfl⟩

/-- Witness for C10 on a concrete operation sequence. -/
theorem claim_C10_witness :
    mkDefault = mkDefault ∧
    runOps [RecordOp.setProt "p", RecordOp.insert "a" 1] mkDefault
      = runOps [RecordOp.setProt "p", RecordOp.insert "a" 1] mkDefault ∧
    (runOps [RecordOp.setProt "p", RecordOp.insert "a" 1] mkDefault).lookupScore "a"
      = (runOps [RecordOp.setProt "p", RecordOp.insert "a" 1] mkDefault).lookupScore "a" :=
  ⟨rfl,
    (claim_C10_deterministic [RecordOp.setProt "p", RecordOp.insert "a" 1]
        mkDefault mkDefault rfl).1,
    (claim_C10_deterministic [RecordOp.setProt "p", RecordOp.insert "a" 1]
        mkDefault mkDefault rfl).2 "a"⟩

end PwizProteotypic
